import Mathlib

/-!
Shallow embedding of the hourly website-traffic forecasting script
(`src/app.py`) together with theorems settling the specification claims.

Timestamps are modelled as integers: raw provider timestamps in minutes
since an arbitrary epoch, hourly-grid timestamps in hours.  Interest and
predicted values are rationals (pandas means are exact rationals on exact
inputs).
-/

namespace TrafficApp

/-- A raw observation from the interest-over-time provider
(`pytrends.interest_over_time()`), timestamp in minutes. -/
structure RawPoint where
  ts : Int
  val : Rat
deriving Repr, DecidableEq

/-- A point of the hourly-resampled series (`ds`, `y` columns of the
dataframe returned by `get_trend_data`), timestamp in hours. -/
structure Point where
  ts : Int
  val : Rat
deriving Repr, DecidableEq

/-- A forecast row before partitioning: columns `ds`, `yhat1` of the
`forecast` dataframe (src/app.py line 67). -/
structure FRow where
  ds : Int
  yhat1 : Rat
deriving Repr, DecidableEq

/-- The segment tag attached by the partitioner: the string column `Type`
with values `"Past Forecast"` / `"Future Forecast"` (lines 81-82). -/
inductive Segment where
  | Past
  | Future
deriving Repr, DecidableEq

/-- A partitioned forecast row: `ds`, `yhat1` plus the `Type` tag
(the rows of `combined`, lines 80-83). -/
structure TaggedRow where
  ds : Int
  yhat1 : Rat
  segment : Segment
deriving Repr, DecidableEq

/-- Forget the segment tag, keeping the `ds` and `yhat1` columns. -/
def dropTag (r : TaggedRow) : FRow :=
  ⟨r.ds, r.yhat1⟩

/-! ## Forecast partitioner (src/app.py lines 74-83) -/

/-- `past_forecast = forecast[forecast['ds'] <= actual_end]` (line 77). -/
def past_forecast (forecast : List FRow) (actual_end : Int) : List FRow :=
  forecast.filter (fun r => r.ds ≤ actual_end)

/-- `future_forecast = forecast[forecast['ds'] > actual_end]` (line 78). -/
def future_forecast (forecast : List FRow) (actual_end : Int) : List FRow :=
  forecast.filter (fun r => actual_end < r.ds)

/-- `.assign(Type=...)` on a block of rows (lines 81-82). -/
def tagRows (rows : List FRow) (s : Segment) : List TaggedRow :=
  rows.map (fun r => ⟨r.ds, r.yhat1, s⟩)

/-- `combined = pd.concat([past_forecast.assign(Type="Past Forecast"),
future_forecast.assign(Type="Future Forecast")])` (lines 80-83). -/
def combined (forecast : List FRow) (actual_end : Int) : List TaggedRow :=
  tagRows (past_forecast forecast actual_end) Segment.Past
    ++ tagRows (future_forecast forecast actual_end) Segment.Future

/-! ## Time-series fetcher (src/app.py lines 19-20 and 32-40) -/

/-- The fixed list of supported sites (src/app.py line 19). -/
def websites : List String :=
  ["youtube.com", "instagram.com", "facebook.com", "amazon.com",
    "linkedin.com", "bitmesra.ac.in"]

/-- `st.selectbox("Choose a Website:", websites)` (line 20): the UI can
only yield one of the entries of `websites`. -/
def selected_site (i : Fin websites.length) : String :=
  websites.get i

/-- The hour containing a minute-resolution timestamp (`resample('H')`
floors each timestamp to its hour; for a positive divisor, `Int` division
is floor division). -/
def hourOf (t : Int) : Int :=
  t / 60

/-- Minimum raw timestamp (`0` is an arbitrary default for `[]`). -/
def minRawTs : List RawPoint → Int
  | [] => 0
  | p :: ps => ps.foldl (fun a q => min a q.ts) p.ts

/-- Maximum raw timestamp (`0` is an arbitrary default for `[]`). -/
def maxRawTs : List RawPoint → Int
  | [] => 0
  | p :: ps => ps.foldl (fun a q => max a q.ts) p.ts

/-- The values of the raw observations falling inside hour `h`. -/
def hourVals (raw : List RawPoint) (h : Int) : List Rat :=
  (raw.filter (fun p => hourOf p.ts = h)).map (fun p => p.val)

/-- `.mean()` within one resampling bucket followed by `.fillna(0)`: the
average of the hour's observations, and `0` for an empty hour (line 39). -/
def hourMean (raw : List RawPoint) (h : Int) : Rat :=
  let vs := hourVals raw h
  if vs.length = 0 then 0 else vs.foldl (· + ·) 0 / vs.length

/-- `df.set_index('ds').resample('H').mean().fillna(0)` (line 39): one
point per hour from the hour of the earliest observation to the hour of
the latest, averaging each hour's observations and zero-filling empty
hours. -/
def resampleHourly (raw : List RawPoint) : List Point :=
  if raw.isEmpty then []
  else
    (List.range (hourOf (maxRawTs raw) - hourOf (minRawTs raw) + 1).toNat).map
      (fun (i : Nat) => ⟨hourOf (minRawTs raw) + (i : Int),
        hourMean raw (hourOf (minRawTs raw) + (i : Int))⟩)

/-- Typed fetch errors of the spec's error taxonomy (§7). -/
inductive FetchError where
  | UnsupportedKeyword
  | DataSourceUnavailable
deriving Repr, DecidableEq

/-- `get_trend_data` (lines 32-40): queries the provider for the keyword
and resamples to the hourly grid.  The `provider` argument models
`pytrends.interest_over_time()` for `timeframe='now 7-d'`; the column
renaming and projection of lines 37-38 do not change the `(ds, y)` data.
The source performs no keyword check and constructs no error value, so the
embedding always returns `Except.ok`. -/
def get_trend_data (provider : String → List RawPoint) (keyword : String) :
    Except FetchError (List Point) :=
  Except.ok (resampleHourly (provider keyword))

/-! ## Window selector (src/app.py lines 50-51) -/

/-- `data['ds'].max()`: maximum timestamp of a series (pandas `max`;
meaningful on non-empty input, `0` is an arbitrary default for `[]`). -/
def maxTs : List Point → Int
  | [] => 0
  | p :: ps => ps.foldl (fun a q => max a q.ts) p.ts

/-- `cutoff_date = data['ds'].max() - pd.Timedelta(days=selected_days)`
(line 50), with time measured in hours. -/
def cutoff_date (data : List Point) (selected_days : Int) : Int :=
  maxTs data - selected_days * 24

/-- `data_small = data[data['ds'] >= cutoff_date]` (line 51); the
`reset_index(drop=True)` only renumbers rows and is identity here. -/
def data_small (data : List Point) (selected_days : Int) : List Point :=
  data.filter (fun p => cutoff_date data selected_days ≤ p.ts)

/-! ## Helper lemmas -/

/-- The seed of the running-max fold is a lower bound of its result. -/
theorem le_foldl_max (l : List Point) (a : Int) :
    a ≤ l.foldl (fun b q => max b q.ts) a := by
  induction l generalizing a with
  | nil => exact le_refl a
  | cons p ps ih => exact le_trans (le_max_left a p.ts) (ih (max a p.ts))

/-- Every member's timestamp is bounded by the running-max fold. -/
theorem mem_le_foldl_max (l : List Point) (a : Int) (p : Point) (hp : p ∈ l) :
    p.ts ≤ l.foldl (fun b q => max b q.ts) a := by
  induction l generalizing a with
  | nil => cases hp
  | cons q qs ih =>
    cases hp with
    | head => exact le_trans (le_max_right a p.ts) (le_foldl_max qs (max a p.ts))
    | tail _ h => exact ih (max a q.ts) h

/-- Every point's timestamp is at most `maxTs` of its series. -/
theorem mem_le_maxTs (l : List Point) (p : Point) (hp : p ∈ l) : p.ts ≤ maxTs l := by
  cases l with
  | nil => cases hp
  | cons q qs =>
    cases hp with
    | head => exact le_foldl_max qs p.ts
    | tail _ h => exact mem_le_foldl_max qs q.ts p h

/-- The seed of the running-min fold is an upper bound of its result. -/
theorem foldl_min_le (l : List RawPoint) (a : Int) :
    l.foldl (fun b q => min b q.ts) a ≤ a := by
  induction l generalizing a with
  | nil => exact le_refl a
  | cons p ps ih => exact le_trans (ih (min a p.ts)) (min_le_left a p.ts)

/-- The running-min fold bounds every member's timestamp from below. -/
theorem foldl_min_le_mem (l : List RawPoint) (a : Int) (p : RawPoint) (hp : p ∈ l) :
    l.foldl (fun b q => min b q.ts) a ≤ p.ts := by
  induction l generalizing a with
  | nil => cases hp
  | cons q qs ih =>
    cases hp with
    | head => exact le_trans (foldl_min_le qs (min a p.ts)) (min_le_right a p.ts)
    | tail _ h => exact ih (min a q.ts) h

/-- `minRawTs` bounds every raw timestamp from below. -/
theorem minRawTs_le_mem (l : List RawPoint) (p : RawPoint) (hp : p ∈ l) :
    minRawTs l ≤ p.ts := by
  cases l with
  | nil => cases hp
  | cons q qs =>
    cases hp with
    | head => exact foldl_min_le qs p.ts
    | tail _ h => exact foldl_min_le_mem qs q.ts p h

/-- The seed of the raw running-max fold is a lower bound of its result. -/
theorem le_foldl_max_raw (l : List RawPoint) (a : Int) :
    a ≤ l.foldl (fun b q => max b q.ts) a := by
  induction l generalizing a with
  | nil => exact le_refl a
  | cons p ps ih => exact le_trans (le_max_left a p.ts) (ih (max a p.ts))

/-- The raw running-max fold bounds every member's timestamp from above. -/
theorem mem_le_foldl_max_raw (l : List RawPoint) (a : Int) (p : RawPoint) (hp : p ∈ l) :
    p.ts ≤ l.foldl (fun b q => max b q.ts) a := by
  induction l generalizing a with
  | nil => cases hp
  | cons q qs ih =>
    cases hp with
    | head => exact le_trans (le_max_right a p.ts) (le_foldl_max_raw qs (max a p.ts))
    | tail _ h => exact ih (max a q.ts) h

/-- `maxRawTs` bounds every raw timestamp from above. -/
theorem mem_le_maxRawTs (l : List RawPoint) (p : RawPoint) (hp : p ∈ l) :
    p.ts ≤ maxRawTs l := by
  cases l with
  | nil => cases hp
  | cons q qs =>
    cases hp with
    | head => exact le_foldl_max_raw qs p.ts
    | tail _ h => exact mem_le_foldl_max_raw qs q.ts p h

/-- Unfolding of `resampleHourly` on a non-empty raw series whose hour span
is known. -/
theorem resampleHourly_eq_grid (raw : List RawPoint) (n : Nat)
    (hne : raw ≠ [])
    (hspan : hourOf (maxRawTs raw) - hourOf (minRawTs raw) + 1 = (n : Int)) :
    resampleHourly raw = (List.range n).map
      (fun (i : Nat) => ⟨hourOf (minRawTs raw) + (i : Int),
        hourMean raw (hourOf (minRawTs raw) + (i : Int))⟩) := by
  have hif : raw.isEmpty = false := by
    cases raw with
    | nil => exact absurd rfl hne
    | cons q qs => rfl
  rw [resampleHourly, hif]
  rw [hspan]
  simp only [Int.toNat_natCast, Bool.false_eq_true, if_false]

/-- On a list sorted (non-strictly) by a key, filtering the rows with key at
most `e` and the rows with key above `e` and concatenating recovers the
list: the two filters are contiguous runs. -/
theorem sorted_filter_split {α : Type} (key : α → Int) (e : Int) :
    ∀ l : List α, List.Pairwise (fun a b => key a ≤ key b) l →
      l.filter (fun a => key a ≤ e) ++ l.filter (fun a => e < key a) = l := by
  intro l
  induction l with
  | nil => intro _; rfl
  | cons a t ih =>
    intro hs
    have hhead : ∀ b ∈ t, key a ≤ key b := (List.pairwise_cons.mp hs).1
    have htail := (List.pairwise_cons.mp hs).2
    by_cases h : key a ≤ e
    · simp [List.filter_cons, h, not_lt.mpr h, ih htail]
    · have he : e < key a := not_le.mp h
      have hall : ∀ b ∈ t, e < key b := fun b hb => lt_of_lt_of_le he (hhead b hb)
      have h1 : t.filter (fun x => decide (key x ≤ e)) = [] := by
        apply List.filter_eq_nil_iff.mpr
        intro b hb
        simp only [decide_eq_true_eq, not_le]
        exact hall b hb
      have h2 : t.filter (fun x => decide (e < key x)) = t := by
        apply List.filter_eq_self.mpr
        intro b hb
        simp only [decide_eq_true_eq]
        exact hall b hb
      simp [List.filter_cons, h, he, h1, h2]

/-- Every row of `past_forecast` has timestamp at most `actual_end`. -/
theorem mem_past_forecast_le (forecast : List FRow) (actual_end : Int)
    (r : FRow) (hr : r ∈ past_forecast forecast actual_end) : r.ds ≤ actual_end := by
  have := (List.mem_filter.mp hr).2
  simpa using this

/-- Every row of `future_forecast` has timestamp above `actual_end`. -/
theorem mem_future_forecast_gt (forecast : List FRow) (actual_end : Int)
    (r : FRow) (hr : r ∈ future_forecast forecast actual_end) : actual_end < r.ds := by
  have := (List.mem_filter.mp hr).2
  simpa using this

/-- Dropping the tags of `tagRows rows s` recovers `rows`. -/
theorem dropTag_tagRows (rows : List FRow) (s : Segment) :
    (tagRows rows s).map dropTag = rows := by
  induction rows with
  | nil => rfl
  | cons r t ih => simp [tagRows, dropTag] at *; exact ih

/-- Every row of `tagRows rows s` carries the tag `s`. -/
theorem mem_tagRows_segment (rows : List FRow) (s : Segment)
    (r : TaggedRow) (hr : r ∈ tagRows rows s) : r.segment = s := by
  rcases List.mem_map.mp hr with ⟨r', _, rfl⟩
  rfl

/-- Untagging commutes with membership: the untagged row of a tagged row of
`tagRows rows s` belongs to `rows`. -/
theorem dropTag_mem_of_mem_tagRows (rows : List FRow) (s : Segment)
    (r : TaggedRow) (hr : r ∈ tagRows rows s) : dropTag r ∈ rows := by
  rcases List.mem_map.mp hr with ⟨r', hr', rfl⟩
  simpa [dropTag] using hr'

/-! ## Theorems: partitioner claims -/

/-- **C1.** Every row of the partitioned forecast is tagged `Past` iff its
timestamp is at most the window end `actual_end`, and `Future` otherwise. -/
theorem combined_segment_iff (forecast : List FRow) (actual_end : Int)
    (r : TaggedRow) (hr : r ∈ combined forecast actual_end) :
    r.segment = Segment.Past ↔ r.ds ≤ actual_end := by
  rcases List.mem_append.mp hr with h | h
  · rcases List.mem_map.mp h with ⟨r', hr', rfl⟩
    have := (List.mem_filter.mp hr').2
    simp only [decide_eq_true_eq] at this
    simpa using this
  · rcases List.mem_map.mp h with ⟨r', hr', rfl⟩
    have := (List.mem_filter.mp hr').2
    simp only [decide_eq_true_eq] at this
    constructor
    · intro hcontra
      exact absurd hcontra (by simp)
    · intro hle
      exact absurd hle (not_le.mpr this)

/-- Concrete instance of C1: the row `⟨0, 1, Past⟩` of
`combined [⟨0,1⟩, ⟨2,3⟩] 1` satisfies the tagging invariant. -/
theorem combined_segment_iff_witness :
    (TaggedRow.mk 0 1 Segment.Past ∈ combined [⟨0, 1⟩, ⟨2, 3⟩] 1) ∧
      (Segment.Past = Segment.Past ↔ (0 : Int) ≤ 1) :=
  ⟨by decide, combined_segment_iff [⟨0, 1⟩, ⟨2, 3⟩] 1 ⟨0, 1, Segment.Past⟩ (by decide)⟩

/-- Rows tagged `Past` in the combined output have timestamp at most the
window end. -/
theorem mem_combined_past_le (forecast : List FRow) (actual_end : Int)
    (r : TaggedRow) (hr : r ∈ combined forecast actual_end)
    (hp : r.segment = Segment.Past) : r.ds ≤ actual_end := by
  rcases List.mem_append.mp hr with h | h
  · have hmem := dropTag_mem_of_mem_tagRows _ _ _ h
    exact mem_past_forecast_le forecast actual_end (dropTag r) hmem
  · have := mem_tagRows_segment _ _ _ h
    rw [hp] at this
    cases this

/-- Rows tagged `Future` in the combined output have timestamp above the
window end. -/
theorem mem_combined_future_gt (forecast : List FRow) (actual_end : Int)
    (r : TaggedRow) (hr : r ∈ combined forecast actual_end)
    (hp : r.segment = Segment.Future) : actual_end < r.ds := by
  rcases List.mem_append.mp hr with h | h
  · have := mem_tagRows_segment _ _ _ h
    rw [hp] at this
    cases this
  · have hmem := dropTag_mem_of_mem_tagRows _ _ _ h
    exact mem_future_forecast_gt forecast actual_end (dropTag r) hmem

/-- **C2.** For a timestamp-ordered forecast, the partitioned output is the
input itself (no row dropped or duplicated) split into two contiguous runs:
a prefix entirely tagged `Past` followed by the rest entirely tagged
`Future`, with `|Past| + |Future| = |forecast|` and every `Past` timestamp
at most every `Future` timestamp. -/
theorem partition_completeness (forecast : List FRow) (actual_end : Int)
    (hsorted : List.Pairwise (fun a b => a.ds ≤ b.ds) forecast) :
    (combined forecast actual_end).map dropTag = forecast ∧
    (past_forecast forecast actual_end).length
        + (future_forecast forecast actual_end).length = forecast.length ∧
    (∃ n ≤ (combined forecast actual_end).length,
      (∀ r ∈ (combined forecast actual_end).take n, r.segment = Segment.Past) ∧
      (∀ r ∈ (combined forecast actual_end).drop n, r.segment = Segment.Future)) ∧
    (∀ r ∈ combined forecast actual_end, ∀ s ∈ combined forecast actual_end,
      r.segment = Segment.Past → s.segment = Segment.Future → r.ds ≤ s.ds) := by
  have hsplit := sorted_filter_split (fun r : FRow => r.ds) actual_end forecast hsorted
  have huntag : (combined forecast actual_end).map dropTag = forecast := by
    rw [combined, List.map_append, dropTag_tagRows, dropTag_tagRows]
    exact hsplit
  refine ⟨huntag, ?_, ?_, ?_⟩
  · have := congrArg List.length hsplit
    simpa [past_forecast, future_forecast] using this
  · refine ⟨(tagRows (past_forecast forecast actual_end) Segment.Past).length, ?_, ?_, ?_⟩
    · rw [combined]
      simp
    · intro r hr
      rw [combined, List.take_left] at hr
      exact mem_tagRows_segment _ _ _ hr
    · intro r hr
      rw [combined, List.drop_left] at hr
      exact mem_tagRows_segment _ _ _ hr
  · intro r hr s hs hrp hsf
    exact le_of_lt (lt_of_le_of_lt (mem_combined_past_le forecast actual_end r hr hrp)
      (mem_combined_future_gt forecast actual_end s hs hsf))

/-- Concrete instance of C2 at the sorted forecast `[⟨0,1⟩, ⟨2,3⟩]` with
window end `1`. -/
theorem partition_completeness_witness :
    (combined [⟨0, 1⟩, ⟨2, 3⟩] 1).map dropTag = [⟨0, 1⟩, ⟨2, 3⟩] ∧
    (past_forecast [⟨0, 1⟩, ⟨2, 3⟩] 1).length
        + (future_forecast [⟨0, 1⟩, ⟨2, 3⟩] 1).length = ([⟨0, 1⟩, ⟨2, 3⟩] : List FRow).length ∧
    (∃ n ≤ (combined [⟨0, 1⟩, ⟨2, 3⟩] 1).length,
      (∀ r ∈ (combined [⟨0, 1⟩, ⟨2, 3⟩] 1).take n, r.segment = Segment.Past) ∧
      (∀ r ∈ (combined [⟨0, 1⟩, ⟨2, 3⟩] 1).drop n, r.segment = Segment.Future)) ∧
    (∀ r ∈ combined [⟨0, 1⟩, ⟨2, 3⟩] 1, ∀ s ∈ combined [⟨0, 1⟩, ⟨2, 3⟩] 1,
      r.segment = Segment.Past → s.segment = Segment.Future → r.ds ≤ s.ds) :=
  partition_completeness [⟨0, 1⟩, ⟨2, 3⟩] 1 (by decide)

/-- **C9.** Partitioning is idempotent: re-partitioning the (untagged back
to `ds`/`yhat1`) already-partitioned forecast with the same window end
reproduces exactly the same tagged rows. -/
theorem partition_idempotent (forecast : List FRow) (actual_end : Int) :
    combined ((combined forecast actual_end).map dropTag) actual_end
      = combined forecast actual_end := by
  have huntag : (combined forecast actual_end).map dropTag =
      past_forecast forecast actual_end ++ future_forecast forecast actual_end := by
    rw [combined, List.map_append, dropTag_tagRows, dropTag_tagRows]
  rw [huntag]
  have happ1 : ∀ l1 l2 : List FRow, past_forecast (l1 ++ l2) actual_end
      = past_forecast l1 actual_end ++ past_forecast l2 actual_end := by
    intro l1 l2
    exact List.filter_append _ _
  have happ2 : ∀ l1 l2 : List FRow, future_forecast (l1 ++ l2) actual_end
      = future_forecast l1 actual_end ++ future_forecast l2 actual_end := by
    intro l1 l2
    exact List.filter_append _ _
  have hpastA : past_forecast (past_forecast forecast actual_end) actual_end
      = past_forecast forecast actual_end :=
    List.filter_eq_self.mpr (fun r hr => by
      simpa using mem_past_forecast_le forecast actual_end r hr)
  have hpastB : past_forecast (future_forecast forecast actual_end) actual_end = [] :=
    List.filter_eq_nil_iff.mpr (fun r hr => by
      simpa using mem_future_forecast_gt forecast actual_end r hr)
  have hfutA : future_forecast (past_forecast forecast actual_end) actual_end = [] :=
    List.filter_eq_nil_iff.mpr (fun r hr => by
      simpa using mem_past_forecast_le forecast actual_end r hr)
  have hfutB : future_forecast (future_forecast forecast actual_end) actual_end
      = future_forecast forecast actual_end :=
    List.filter_eq_self.mpr (fun r hr => by
      simpa using mem_future_forecast_gt forecast actual_end r hr)
  calc combined (past_forecast forecast actual_end ++ future_forecast forecast actual_end)
        actual_end
      = tagRows (past_forecast forecast actual_end ++ []) Segment.Past
          ++ tagRows ([] ++ future_forecast forecast actual_end) Segment.Future := by
        rw [combined, happ1, happ2, hpastA, hpastB, hfutA, hfutB]
    _ = combined forecast actual_end := by
        rw [List.append_nil, List.nil_append, combined]

/-- **C10.** Partitioning only adds the segment tag and regroups rows: the
partitioned output, with tags dropped, is a permutation of the input, so
every row keeps its `ds` and `yhat1` values and no row is added or lost. -/
theorem partition_frame (forecast : List FRow) (actual_end : Int) :
    ((combined forecast actual_end).map dropTag).Perm forecast := by
  have huntag : (combined forecast actual_end).map dropTag =
      past_forecast forecast actual_end ++ future_forecast forecast actual_end := by
    rw [combined, List.map_append, dropTag_tagRows, dropTag_tagRows]
  rw [huntag]
  have hcongr : future_forecast forecast actual_end =
      forecast.filter (fun r => !decide (r.ds ≤ actual_end)) := by
    rw [future_forecast]
    apply List.filter_congr
    intro r _
    by_cases h : r.ds ≤ actual_end
    · simp [h, not_lt.mpr h]
    · simp [h, not_le.mp h]
  rw [hcongr, past_forecast]
  exact List.filter_append_perm _ forecast

/-! ## Theorems: window selector claims -/

/-- **C3.** For a non-empty, timestamp-sorted series and `days ∈ {1,3,7}`,
the selected window consists exactly of the points with timestamp at least
`maxTs - days*24` hours (membership both ways), every selected point is at
least the cutoff, and the window is a suffix of the series (order
preserved). -/
theorem select_window_spec (data : List Point) (selected_days : Int)
    (_hne : data ≠ [])
    (hsorted : List.Pairwise (fun a b => a.ts ≤ b.ts) data)
    (_hdays : selected_days = 1 ∨ selected_days = 3 ∨ selected_days = 7) :
    (∀ p ∈ data_small data selected_days, maxTs data - selected_days * 24 ≤ p.ts) ∧
    (∀ p ∈ data, (p ∈ data_small data selected_days ↔
      cutoff_date data selected_days ≤ p.ts)) ∧
    (data_small data selected_days).IsSuffix data := by
  refine ⟨?_, ?_, ?_⟩
  · intro p hp
    have := (List.mem_filter.mp hp).2
    simpa [cutoff_date] using this
  · intro p hp
    constructor
    · intro hmem
      have := (List.mem_filter.mp hmem).2
      simpa using this
    · intro hc
      exact List.mem_filter.mpr ⟨hp, by simpa using hc⟩
  · have hsplit := sorted_filter_split (fun p : Point => p.ts)
      (cutoff_date data selected_days - 1) data hsorted
    have hcongr : data.filter
        (fun p => decide (cutoff_date data selected_days - 1 < p.ts))
        = data_small data selected_days := by
      rw [data_small]
      apply List.filter_congr
      intro p _
      rw [decide_eq_decide]
      omega
    exact ⟨data.filter (fun p => decide (p.ts ≤ cutoff_date data selected_days - 1)),
      by rw [hcongr] at hsplit; exact hsplit⟩

/-- Concrete instance of C3 at the sorted three-point series
`[⟨0,1⟩, ⟨30,2⟩, ⟨48,3⟩]` with a one-day lookback. -/
theorem select_window_spec_witness :
    (∀ p ∈ data_small [⟨0, 1⟩, ⟨30, 2⟩, ⟨48, 3⟩] 1,
      maxTs [⟨0, 1⟩, ⟨30, 2⟩, ⟨48, 3⟩] - 1 * 24 ≤ p.ts) ∧
    (∀ p ∈ ([⟨0, 1⟩, ⟨30, 2⟩, ⟨48, 3⟩] : List Point),
      (p ∈ data_small [⟨0, 1⟩, ⟨30, 2⟩, ⟨48, 3⟩] 1 ↔
        cutoff_date [⟨0, 1⟩, ⟨30, 2⟩, ⟨48, 3⟩] 1 ≤ p.ts)) ∧
    (data_small [⟨0, 1⟩, ⟨30, 2⟩, ⟨48, 3⟩] 1).IsSuffix [⟨0, 1⟩, ⟨30, 2⟩, ⟨48, 3⟩] :=
  select_window_spec [⟨0, 1⟩, ⟨30, 2⟩, ⟨48, 3⟩] 1 (by decide) (by decide) (Or.inl rfl)

/-- **C5.** When the requested lookback exceeds the available history — the
cutoff is at or before every timestamp of the series — the selector returns
the full series unchanged (and, being a total function, raises no error). -/
theorem select_window_short_history (data : List Point) (selected_days : Int)
    (hshort : ∀ p ∈ data, cutoff_date data selected_days ≤ p.ts) :
    data_small data selected_days = data :=
  List.filter_eq_self.mpr (fun p hp => by simpa using hshort p hp)

/-- Concrete instance of C5: a single-point series with a 7-day lookback is
returned whole. -/
theorem select_window_short_history_witness :
    data_small [⟨0, 1⟩] 7 = [⟨0, 1⟩] :=
  select_window_short_history [⟨0, 1⟩] 7 (by decide)

/-! ## Theorems: fetcher claims -/

/-- **C6.** Whenever the provider's raw series is non-empty and its
hour-floored span covers exactly the trailing 7 days (168 hourly buckets,
the provider contract for `timeframe='now 7-d'`), the fetch succeeds and its
hourly-resampled output has exactly `7*24` points whose consecutive
timestamps each differ by exactly one hour (no missing hours). -/
theorem fetcher_density (provider : String → List RawPoint) (keyword : String)
    (hne : provider keyword ≠ [])
    (hspan : hourOf (maxRawTs (provider keyword))
      - hourOf (minRawTs (provider keyword)) = 167) :
    get_trend_data provider keyword = Except.ok (resampleHourly (provider keyword)) ∧
    (resampleHourly (provider keyword)).length = 7 * 24 ∧
    List.Chain' (fun p q : Point => q.ts = p.ts + 1) (resampleHourly (provider keyword)) := by
  have hgrid := resampleHourly_eq_grid (provider keyword) 168 hne (by omega)
  refine ⟨rfl, ?_, ?_⟩
  · rw [hgrid]
    simp
  · rw [hgrid, List.chain'_map]
    have h167 : (168 : Nat) = 167 + 1 := rfl
    rw [h167]
    refine (List.chain'_range_succ _ 167).mpr ?_
    intro m _
    show hourOf (minRawTs (provider keyword)) + ((m + 1 : Nat) : Int)
      = hourOf (minRawTs (provider keyword)) + (m : Int) + 1
    push_cast
    ring

/-- A synthetic dense provider series: one observation per hour for 168
hours. -/
def rawWeek : List RawPoint :=
  (List.range 168).map (fun (i : Nat) => ⟨60 * (i : Int), 1⟩)

set_option maxRecDepth 10000 in
/-- Concrete instance of C6 at a synthetic 7-day hourly provider series. -/
theorem fetcher_density_witness :
    get_trend_data (fun _ => rawWeek) "youtube.com"
      = Except.ok (resampleHourly rawWeek) ∧
    (resampleHourly rawWeek).length = 7 * 24 ∧
    List.Chain' (fun p q : Point => q.ts = p.ts + 1) (resampleHourly rawWeek) :=
  fetcher_density (fun _ => rawWeek) "youtube.com" (by decide) (by decide)

/-- **C7.** If some hour `H` inside the raw series' time range contains no
observation, the fetched hourly output contains the point `⟨H, 0⟩`:
empty hours are zero-filled. -/
theorem fetcher_gapfill (provider : String → List RawPoint) (keyword : String) (H : Int)
    (hne : provider keyword ≠ [])
    (hlo : hourOf (minRawTs (provider keyword)) ≤ H)
    (hhi : H ≤ hourOf (maxRawTs (provider keyword)))
    (hgap : ∀ p ∈ provider keyword, hourOf p.ts ≠ H) :
    get_trend_data provider keyword = Except.ok (resampleHourly (provider keyword)) ∧
    Point.mk H 0 ∈ resampleHourly (provider keyword) := by
  refine ⟨rfl, ?_⟩
  have hgrid := resampleHourly_eq_grid (provider keyword)
    (hourOf (maxRawTs (provider keyword)) - hourOf (minRawTs (provider keyword)) + 1).toNat
    hne (by omega)
  rw [hgrid]
  apply List.mem_map.mpr
  refine ⟨(H - hourOf (minRawTs (provider keyword))).toNat, List.mem_range.mpr (by omega), ?_⟩
  have hH : hourOf (minRawTs (provider keyword))
      + ((H - hourOf (minRawTs (provider keyword))).toNat : Int) = H := by
    omega
  rw [hH]
  have hvals : hourVals (provider keyword) H = [] := by
    have hfil : (provider keyword).filter (fun p => decide (hourOf p.ts = H)) = [] :=
      List.filter_eq_nil_iff.mpr (fun p hp => by simpa using hgap p hp)
    rw [hourVals, hfil]
    rfl
  have hmean : hourMean (provider keyword) H = 0 := by
    rw [hourMean, hvals]
    rfl
  rw [hmean]

/-- A synthetic raw series with observations in hours `0` and `2` but none
in hour `1`. -/
def rawGap : List RawPoint :=
  [⟨0, 5⟩, ⟨120, 7⟩]

/-- Concrete instance of C7: hour `1` is missing from `rawGap` and the
resampled output contains `⟨1, 0⟩`. -/
theorem fetcher_gapfill_witness :
    get_trend_data (fun _ => rawGap) "youtube.com"
      = Except.ok (resampleHourly rawGap) ∧
    Point.mk 1 0 ∈ resampleHourly rawGap :=
  fetcher_gapfill (fun _ => rawGap) "youtube.com" 1
    (by decide) (by decide) (by decide) (by decide)

/-- **C8 counterexample.** The claim fails on the code: `get_trend_data`
contains no allow-list guard, so for the keyword `"example.com"`, which is
outside `websites`, the fetch still succeeds instead of failing with
`UnsupportedKeyword`. -/
theorem get_trend_data_no_guard :
    ("example.com" ∉ websites) ∧
      (get_trend_data (fun _ => [⟨0, 1⟩]) "example.com").isOk = true := by
  constructor
  · decide
  · rfl

/-- **C8 amended.** The fetch layer accepts every keyword — it never
returns an error, in particular never `UnsupportedKeyword` — and the
allow-list is enforced only by the UI: every selectable site lies in
`websites`. -/
theorem get_trend_data_accepts_any_keyword :
    (∀ (provider : String → List RawPoint) (keyword : String),
      (get_trend_data provider keyword).isOk = true) ∧
    (∀ i : Fin websites.length, selected_site i ∈ websites) := by
  constructor
  · intro provider keyword
    rfl
  · intro i
    exact List.get_mem websites i.1 i.2

/-! ## Trainer/Predictor (src/app.py lines 57-67) -/

/-- Modelled from the spec: the Trainer/Predictor — NeuralProphet's
`model.make_future_dataframe(data_small, periods=48)` followed by
`model.predict(future)` (src/app.py lines 66-67) — is external library
code whose implementation is not part of this repository.  Per the spec
(§4.3) its output holds an in-sample fitted row for every timestamp of the
training window followed by `horizon_hours` hourly rows beyond the
window's last timestamp; `yhat` stands for the fitted model's opaque
prediction function. -/
def train_and_forecast (window : List Point) (horizon_hours : Nat)
    (yhat : Int → Rat) : List FRow :=
  window.map (fun p => ⟨p.ts, yhat p.ts⟩)
    ++ (List.range horizon_hours).map
      (fun (i : Nat) => ⟨maxTs window + ((i : Int) + 1),
        yhat (maxTs window + ((i : Int) + 1))⟩)

/-- Partitioning a concatenation of a block of rows at or before the window
end and a block of rows after it tags the first block `Past` and the second
`Future`, in place. -/
theorem combined_append_split (A B : List FRow) (e : Int)
    (hA : ∀ r ∈ A, r.ds ≤ e) (hB : ∀ r ∈ B, e < r.ds) :
    combined (A ++ B) e = tagRows A Segment.Past ++ tagRows B Segment.Future := by
  have hpastA : past_forecast A e = A :=
    List.filter_eq_self.mpr (fun r hr => by simpa using hA r hr)
  have hpastB : past_forecast B e = [] :=
    List.filter_eq_nil_iff.mpr (fun r hr => by simpa using hB r hr)
  have hfutA : future_forecast A e = [] :=
    List.filter_eq_nil_iff.mpr (fun r hr => by simpa using hA r hr)
  have hfutB : future_forecast B e = B :=
    List.filter_eq_self.mpr (fun r hr => by simpa using hB r hr)
  have happ1 : past_forecast (A ++ B) e = past_forecast A e ++ past_forecast B e :=
    List.filter_append _ _
  have happ2 : future_forecast (A ++ B) e = future_forecast A e ++ future_forecast B e :=
    List.filter_append _ _
  rw [combined, happ1, happ2, hpastA, hpastB, hfutA, hfutB, List.append_nil,
    List.nil_append]

/-- **C4.** (Trainer output modelled from the spec.)  For every training
window and every horizon, the trainer output has
`window.length + horizon_hours` rows — an in-sample row for every window
timestamp, then rows strictly beyond the window's last timestamp — and
partitioning it at the window end tags the first `window.length` rows
`Past` and the remaining `horizon_hours` rows `Future`.  In particular a
24-point window with horizon 48 yields `24 + 48` rows, the first 24
`Past` and the last 48 `Future` (see the witness). -/
theorem trainer_partition_shape (window : List Point) (horizon_hours : Nat)
    (yhat : Int → Rat) :
    (train_and_forecast window horizon_hours yhat).length
      = window.length + horizon_hours ∧
    (∀ p ∈ window, FRow.mk p.ts (yhat p.ts) ∈ train_and_forecast window horizon_hours yhat) ∧
    (∀ r ∈ (train_and_forecast window horizon_hours yhat).drop window.length,
      maxTs window < r.ds) ∧
    (combined (train_and_forecast window horizon_hours yhat) (maxTs window)).length
      = window.length + horizon_hours ∧
    (∀ r ∈ (combined (train_and_forecast window horizon_hours yhat)
        (maxTs window)).take window.length, r.segment = Segment.Past) ∧
    (∀ r ∈ (combined (train_and_forecast window horizon_hours yhat)
        (maxTs window)).drop window.length, r.segment = Segment.Future) := by
  have hA : ∀ r ∈ window.map (fun p => (⟨p.ts, yhat p.ts⟩ : FRow)),
      r.ds ≤ maxTs window := by
    intro r hr
    rcases List.mem_map.mp hr with ⟨p, hp, rfl⟩
    exact mem_le_maxTs window p hp
  have hB : ∀ r ∈ (List.range horizon_hours).map
      (fun (i : Nat) => (⟨maxTs window + ((i : Int) + 1),
        yhat (maxTs window + ((i : Int) + 1))⟩ : FRow)),
      maxTs window < r.ds := by
    intro r hr
    rcases List.mem_map.mp hr with ⟨i, _, rfl⟩
    have : (0 : Int) ≤ (i : Int) := Int.natCast_nonneg i
    show maxTs window < maxTs window + ((i : Int) + 1)
    omega
  have hAlen : (window.map (fun p => (⟨p.ts, yhat p.ts⟩ : FRow))).length
      = window.length :=
    List.length_map window _
  have hsplit := combined_append_split _ _ (maxTs window) hA hB
  refine ⟨?_, ?_, ?_, ?_, ?_, ?_⟩
  · rw [train_and_forecast, List.length_append, hAlen, List.length_map,
      List.length_range]
  · intro p hp
    rw [train_and_forecast]
    exact List.mem_append_left _ (List.mem_map.mpr ⟨p, hp, rfl⟩)
  · rw [train_and_forecast, ← hAlen, List.drop_left]
    exact hB
  · rw [train_and_forecast, hsplit]
    simp [tagRows]
  · rw [train_and_forecast, hsplit]
    have htag : (tagRows (window.map (fun p => (⟨p.ts, yhat p.ts⟩ : FRow)))
        Segment.Past).length = window.length := by
      rw [tagRows, List.length_map, hAlen]
    rw [← htag, List.take_left]
    intro r hr
    exact mem_tagRows_segment _ _ _ hr
  · rw [train_and_forecast, hsplit]
    have htag : (tagRows (window.map (fun p => (⟨p.ts, yhat p.ts⟩ : FRow)))
        Segment.Past).length = window.length := by
      rw [tagRows, List.length_map, hAlen]
    rw [← htag, List.drop_left]
    intro r hr
    exact mem_tagRows_segment _ _ _ hr

/-- A synthetic 24-point hourly training window of constant value 1. -/
def window24 : List Point :=
  (List.range 24).map (fun (i : Nat) => ⟨(i : Int), 1⟩)

/-- Concrete instance of C4 — the spec's "in particular" scenario — at the
24-point window `window24` with horizon 48 and a constant prediction
function: `24 + 48` rows, the first 24 tagged `Past`, the last 48
`Future`. -/
theorem trainer_partition_shape_witness :
    (train_and_forecast window24 48 (fun _ => 2)).length = 24 + 48 ∧
    (∀ p ∈ window24, FRow.mk p.ts 2 ∈ train_and_forecast window24 48 (fun _ => 2)) ∧
    (∀ r ∈ (train_and_forecast window24 48 (fun _ => 2)).drop 24,
      maxTs window24 < r.ds) ∧
    (combined (train_and_forecast window24 48 (fun _ => 2)) (maxTs window24)).length
      = 24 + 48 ∧
    (∀ r ∈ (combined (train_and_forecast window24 48 (fun _ => 2))
        (maxTs window24)).take 24, r.segment = Segment.Past) ∧
    (∀ r ∈ (combined (train_and_forecast window24 48 (fun _ => 2))
        (maxTs window24)).drop 24, r.segment = Segment.Future) :=
  trainer_partition_shape window24 48 (fun _ => 2)

end TrafficApp
